import Mathlib

/-!
Verification of `scripts/fetch_trending.py`.

The development shallowly embeds the script's pure computation in Lean:

* text utilities that model Python's `re.sub(r"\s+", " ", _)`, `str.strip`,
  `str.splitlines`, `str.lstrip("/")`, `str.count("/")`, case-insensitive
  substring search (what `re.search(p, line, re.I)` computes for the literal
  patterns the script uses), and the two code-removal substitutions of
  `extract_section`;
* the streaming HTML scanner `TrendingParser` as a step function on an
  explicit state record over a stream of start-tag / text / end-tag events
  (exactly the callbacks Python's `HTMLParser` delivers);
* `extract_section`, `fetch_readme` (with the network abstracted as an
  oracle from branch name to `Option String`: `some` is a successful,
  decoded response, `none` is any error/timeout/non-success outcome the
  `try/except` swallows), `summarize_repo_cn` (taking the fetched README
  text as an argument), `build_markdown` (taking the per-repo README
  provider and the footer timestamp as arguments), and the pure
  read-modify-write core of `update_readme`.

Machine strings are Lean `String`s (lists of unicode scalar values), which
matches Python 3 `str` for all inputs considered here.  Python's `\s` class
and `str.strip`/`str.splitlines` boundaries are modelled by their ASCII
subsets (space, tab, newline, carriage return, vertical tab, form feed; the
script's own delimiters are all in this subset).
-/

namespace AiTrending

/-- Constants of the script (`TRENDING_URL`, `KEYWORD`, `TOP_N`,
`README_MAX_CHARS`). -/
def TRENDING_URL : String := "https://github.com/trending?since=daily"

def KEYWORD : String := "ai"

def TOP_N : Nat := 15

def README_MAX_CHARS : Nat := 4000

/-! ## Text utilities -/

/-- ASCII whitespace, the subset of Python's `\s` / `str.strip` class that
can occur in this development. -/
def isWs (c : Char) : Bool :=
  c = ' ' || c = '\t' || c = '\n' || c = '\r' || c = Char.ofNat 11 || c = Char.ofNat 12

/-- Worker for `collapseWs`: `prevWs` records whether the previous character
belonged to the current whitespace run (which already emitted its single
space). -/
def cwGo (prevWs : Bool) : List Char → List Char
  | [] => []
  | c :: t =>
    if isWs c then
      (if prevWs then cwGo true t else ' ' :: cwGo true t)
    else c :: cwGo false t

/-- `re.sub(r"\s+", " ", s)`: every maximal whitespace run becomes a single
space (no trimming). -/
def collapseWs (l : List Char) : List Char := cwGo false l

/-- Python `str.strip()` on a character list. -/
def pstrip (l : List Char) : List Char :=
  ((l.dropWhile isWs).reverse.dropWhile isWs).reverse

/-- Python `str.strip()` on a `String`. -/
def stripStr (s : String) : String := String.mk (pstrip s.data)

/-- Does `pat` occur as a contiguous run inside the list?  (Python's
`pat in hay`.) -/
def containsSub (pat : List Char) : List Char → Bool
  | [] => pat.isPrefixOf []
  | c :: t => pat.isPrefixOf (c :: t) || containsSub pat t

/-- Python `needle in hay` on strings. -/
def strContains (hay needle : String) : Bool := containsSub needle.data hay.data

/-- Python `s.startswith(pre)` (also what `re.match(r"^#", s)` and
`re.search(r"^#", s)` test for the one-character anchor pattern). -/
def pyStartsWith (s pre : String) : Bool := pre.data.isPrefixOf s.data

/-- Python `str.lower()` restricted to ASCII case mapping (the script's
patterns are ASCII letters and Chinese characters, which `lower` leaves
unchanged). -/
def toLowerStr (s : String) : String := String.mk (s.data.map Char.toLower)

/-- What `re.search(pat, line, re.I)` computes when `pat` is a literal
pattern (no metacharacters), as all patterns of the script except `"^#"`
are: case-insensitive substring search. -/
def searchCI (pat line : String) : Bool :=
  containsSub (toLowerStr pat).data (toLowerStr line).data

/-- Python `s.count("/")` (number of slash characters). -/
def countSlashes (s : String) : Nat := s.data.countP (fun c => c = '/')

/-- Python `s.lstrip("/")`: remove every leading slash. -/
def lstripSlash (s : String) : String :=
  String.mk (s.data.dropWhile (fun c => c = '/'))

/-- Worker for `splitlines`; `acc` holds the current line reversed. -/
def slGo (acc : List Char) : List Char → List String
  | [] => if acc = [] then [] else [String.mk acc.reverse]
  | '\r' :: '\n' :: t => String.mk acc.reverse :: slGo [] t
  | c :: t =>
    if c = '\n' || c = '\r' then String.mk acc.reverse :: slGo [] t
    else slGo (c :: acc) t

/-- Python `str.splitlines()` restricted to the `\n`, `\r`, `\r\n` line
boundaries (the exotic unicode boundaries cannot arise here): terminators
end a line, and a final unterminated fragment is kept only if non-empty. -/
def splitlines (l : List Char) : List String := slGo [] l

/-! ## The two code-removal substitutions of `extract_section`

`re.sub(r"`{3}[\s\S]*?`{3}", "", snippet)` deletes, repeatedly and from the
left, the span from a triple-backtick delimiter to the nearest following
triple-backtick delimiter.  Both delimiters are required by the pattern: a
lazy `[\s\S]*?` still needs the closing `` `{3} `` to match, so an opening
delimiter with no closing one matches nothing and is kept verbatim.
`rfGo` implements exactly that scan: in state `none` it copies characters
until three consecutive backticks start a span; in state `some buf` it
buffers the span's characters so that, if the input ends before a closing
delimiter appears, the whole unterminated span is emitted unchanged. -/

/-- The backtick character. -/
def bq : Char := Char.ofNat 96

/-- The triple-backtick fence delimiter. -/
def fence : List Char := [bq, bq, bq]

/-- `fence` occurs at index `i`. -/
def fenceAt (l : List Char) (i : Nat) : Bool := fence.isPrefixOf (l.drop i)

/-- Scanner for the fenced-code-block substitution (see section comment). -/
def rfGo (st : Option (List Char)) : List Char → List Char
  | a :: b :: c :: t =>
    match st with
    | none =>
      if a = bq ∧ b = bq ∧ c = bq then rfGo (some [a, b, c]) t
      else a :: rfGo none (b :: c :: t)
    | some buf =>
      if a = bq ∧ b = bq ∧ c = bq then rfGo none t
      else rfGo (some (buf ++ [a])) (b :: c :: t)
  | l =>
    match st with
    | none => l
    | some buf => buf ++ l

/-- `re.sub(r"`{3}[\s\S]*?`{3}", "", snippet)`. -/
def removeFences (l : List Char) : List Char := rfGo none l

/-- Scanner for the inline-code substitution `re.sub(r"`[^`]+`", "", _)`:
in state `none` characters are copied until an opening backtick; in state
`some buf`, `buf` holds the non-backtick span seen so far.  A backtick
ending a non-empty span closes the match and drops it; a backtick arriving
with `buf = []` cannot close (the pattern needs at least one non-backtick),
so the previous backtick is emitted verbatim and the new one reopens; at
end of input an unclosed opening backtick and its span are emitted
verbatim. -/
def riGo (st : Option (List Char)) : List Char → List Char
  | [] =>
    match st with
    | none => []
    | some buf => bq :: buf
  | c :: t =>
    match st with
    | none => if c = bq then riGo (some []) t else c :: riGo none t
    | some buf =>
      if c = bq then
        (if buf = [] then bq :: riGo (some []) t else riGo none t)
      else riGo (some (buf ++ [c])) t

/-- `re.sub(r"`[^`]+`", "", snippet)`. -/
def removeInline (l : List Char) : List Char := riGo none l

/-! ## `extract_section`

The script's regex patterns are abstracted as the line predicate
`pm : String → Bool`, standing for `any(re.search(p, line, re.I) for p in
patterns)`; the concrete pattern lists of `summarize_repo_cn` are literal
patterns (instantiated with `searchCI`) except `"^#"` (instantiated with
`pyStartsWith`, which is what `re.search("^#", line)` tests). -/

/-- Index of the first line satisfying `pm` (the script collects every
matching index and keeps `indices[0]`). -/
def firstMatch (pm : String → Bool) : List String → Option Nat
  | [] => none
  | l :: t => if pm l then some 0 else (firstMatch pm t).map (· + 1)

/-- The `for j in range(start + 1, len(lines))` loop: first index strictly
after `start` whose line starts with `#` (`re.match(r"^#", _)`), defaulting
to `len(lines)`. -/
def findEnd (lines : List String) (start : Nat) : Nat :=
  match firstMatch (fun l => pyStartsWith l "#") (lines.drop (start + 1)) with
  | none => lines.length
  | some k => start + 1 + k

/-- Lines `start..end` of `extract_section`, joined with `"\n"` and
stripped (line 122 of the script); `none` when the input text is empty or
no line matches. -/
def rawSection (pm : String → Bool) (text : String) : Option (List Char) :=
  if text.data = [] then none
  else
    match firstMatch pm (splitlines text.data) with
    | none => none
    | some start =>
      some (pstrip (String.intercalate "\n"
        (((splitlines text.data).drop start).take (findEnd (splitlines text.data) start - start))).data)

/-- Lines 123-125 of the script: fenced-block removal, inline-code removal,
whitespace collapsing. -/
def cleanSection (l : List Char) : List Char :=
  collapseWs (removeInline (removeFences l))

/-- `extract_section(text, patterns)`: the cleaned first matching section,
truncated to 400 characters. -/
def extract_section (pm : String → Bool) (text : String) : String :=
  match rawSection pm text with
  | none => ""
  | some raw => String.mk ((cleanSection raw).take 400)

/-! ## The streaming scanner (`TrendingParser`) -/

/-- One entry of `TrendingParser.items`. -/
structure Item where
  repo : String
  display : String
  desc : String
deriving DecidableEq, Repr

/-- The mutable state of `TrendingParser`.  `current_text` and
`current_desc` are the accumulator lists joined with `" ".join` on tag
close; `items` grows at the tail like the Python list. -/
structure ScannerState where
  in_h2 : Bool
  in_a : Bool
  in_desc : Bool
  current_href : Option String
  current_text : List String
  current_desc : List String
  items : List Item
deriving DecidableEq, Repr

/-- The state after `TrendingParser.__init__`. -/
def initState : ScannerState :=
  { in_h2 := false, in_a := false, in_desc := false,
    current_href := none, current_text := [], current_desc := [], items := [] }

/-- The three `HTMLParser` callbacks the script implements, as events. -/
inductive HtmlEvent where
  | startTag (tag : String) (attrs : List (String × String))
  | dataEv (data : String)
  | endTag (tag : String)
deriving DecidableEq, Repr

/-- Python `dict(attrs).get(key)`: the *last* binding of a duplicated key
wins.  (Attribute values are modelled as strings; the script never meets a
valueless attribute.) -/
def dictGet (attrs : List (String × String)) (key : String) : Option String :=
  List.lookup key attrs.reverse

/-- `" ".join(parts)` followed by whitespace collapsing and stripping,
the finalisation applied to both accumulators on tag close. -/
def cleanText (parts : List String) : String :=
  String.mk (pstrip (collapseWs (String.intercalate " " parts).data))

/-- `TrendingParser.handle_starttag`. -/
def handle_starttag (tag : String) (attrs : List (String × String)) (s : ScannerState) :
    ScannerState :=
  let s1 := if tag = "h2" then { s with in_h2 := true } else s
  let s2 :=
    if tag = "a" ∧ s1.in_h2 = true then
      match dictGet attrs "href" with
      | some href =>
        if href ≠ "" ∧ pyStartsWith href "/" = true ∧ 2 ≤ countSlashes href then
          { s1 with in_a := true, current_href := some href, current_text := [] }
        else s1
      | none => s1
    else s1
  if tag = "p" ∧ strContains ((dictGet attrs "class").getD "") "col-9" = true then
    { s2 with in_desc := true, current_desc := [] }
  else s2

/-- `TrendingParser.handle_data`. -/
def handle_data (d : String) (s : ScannerState) : ScannerState :=
  { s with
    current_text := if s.in_a then s.current_text ++ [d] else s.current_text,
    current_desc := if s.in_desc then s.current_desc ++ [d] else s.current_desc }

/-- `if self.items and not self.items[-1]["desc"]: self.items[-1]["desc"] = desc`:
fill the last record's description when it is still empty. -/
def setLastDescIfEmpty (items : List Item) (d : String) : List Item :=
  match items with
  | [] => []
  | it :: rest =>
    if rest = [] then (if it.desc = "" then [{ it with desc := d }] else [it])
    else it :: setLastDescIfEmpty rest d

/-- `TrendingParser.handle_endtag`. -/
def handle_endtag (tag : String) (s : ScannerState) : ScannerState :=
  let s1 :=
    if tag = "a" ∧ s.in_a = true then
      { s with
        items :=
          if lstripSlash (s.current_href.getD "") ≠ "" then
            s.items ++ [{ repo := lstripSlash (s.current_href.getD ""),
                          display := cleanText s.current_text, desc := "" }]
          else s.items,
        in_a := false, current_href := none, current_text := [] }
    else s
  let s2 := if tag = "h2" then { s1 with in_h2 := false } else s1
  if tag = "p" ∧ s2.in_desc = true then
    { s2 with items := setLastDescIfEmpty s2.items (cleanText s2.current_desc),
              in_desc := false, current_desc := [] }
  else s2

/-- Dispatch one parse event. -/
def step (s : ScannerState) (e : HtmlEvent) : ScannerState :=
  match e with
  | .startTag tag attrs => handle_starttag tag attrs s
  | .dataEv d => handle_data d s
  | .endTag tag => handle_endtag tag s

/-- Feed a whole event stream (what `parser.feed(html)` delivers). -/
def processEvents (events : List HtmlEvent) (s : ScannerState) : ScannerState :=
  events.foldl step s

/-- The event stream of one anchor element with its text chunks. -/
def anchorEvents (attrs : List (String × String)) (texts : List String) : List HtmlEvent :=
  HtmlEvent.startTag "a" attrs :: (texts.map HtmlEvent.dataEv ++ [HtmlEvent.endTag "a"])

/-! ## `fetch_readme`, `summarize_repo_cn`, `build_markdown`, `update_readme` -/

/-- The `for branch in ["main", "master"]` loop of `fetch_readme`.  `att b`
is the outcome of `urlopen(...).read().decode(...)` for branch `b`: `some`
is a successful decoded body, `none` is anything the `except` arms catch
(HTTP error, network error, timeout). -/
def fetch_readme_loop (att : String → Option String) : List String → String
  | [] => ""
  | b :: bs =>
    match att b with
    | some d => String.mk (d.data.take README_MAX_CHARS)
    | none => fetch_readme_loop att bs

/-- `fetch_readme(repo)` with the network abstracted as `att`. -/
def fetch_readme (att : String → Option String) : String :=
  fetch_readme_loop att ["main", "master"]

/-- The pattern list `[r"installation", r"install", r"setup", r"快速开始", r"安装"]`. -/
def installPats (line : String) : Bool :=
  searchCI "installation" line || searchCI "install" line || searchCI "setup" line ||
    searchCI "快速开始" line || searchCI "安装" line

/-- The pattern list `[r"usage", r"getting started", r"example", r"使用", r"用法", r"quickstart"]`. -/
def usagePats (line : String) : Bool :=
  searchCI "usage" line || searchCI "getting started" line || searchCI "example" line ||
    searchCI "使用" line || searchCI "用法" line || searchCI "quickstart" line

/-- The pattern list `[r"^#", r"简介", r"about", r"overview"]`;
`re.search("^#", line)` holds exactly when the line starts with `#`. -/
def introPats (line : String) : Bool :=
  pyStartsWith line "#" || searchCI "简介" line || searchCI "about" line || searchCI "overview" line

/-- The dictionary returned by `summarize_repo_cn`. -/
structure SummaryCn where
  intro : String
  install : String
  usage : String
  scenario : String
  meaning : String
deriving DecidableEq, Repr

/-- `summarize_repo_cn(repo, desc)` with the already fetched README text as
argument (the script computes it as `fetch_readme(repo)`). -/
def summarize_repo_cn (readme : String) (desc : String) : SummaryCn :=
  let install := extract_section installPats readme
  let usage := extract_section usagePats readme
  let intro0 := extract_section introPats readme
  let intro := if intro0 = "" then desc else intro0
  { intro := if intro = "" then desc else stripStr intro,
    install := install,
    usage := usage,
    scenario := "适合开发者进行 AI 项目实验或快速集成",
    meaning := if desc = "" then "提供可复用的 AI 能力或工具"
               else "提升开发效率或增强 AI 能力的开源项目" }

/-- The per-record block of `build_markdown`'s loop body (`g` maps a repo
identifier to its fetched README text, modelling `fetch_readme` inside
`summarize_repo_cn`). -/
def recordBlock (g : String → String) (idx : Nat) (it : Item) : List String :=
  let desc := stripStr it.desc
  let url := "https://github.com/" ++ it.repo
  let summary := summarize_repo_cn (g it.repo) desc
  [toString idx ++ ". [" ++ it.repo ++ "](" ++ url ++ ")"]
    ++ (if summary.intro ≠ "" then ["   - 简介：" ++ summary.intro] else [])
    ++ ["   - 适合场景：" ++ summary.scenario]
    ++ (if summary.install ≠ "" then ["   - 安装方式：" ++ summary.install] else [])
    ++ (if summary.usage ≠ "" then ["   - 使用方式：" ++ summary.usage] else [])
    ++ ["   - 项目意义：" ++ summary.meaning]

/-- The `lines` list built by `build_markdown(items, date_str)`; `now_str`
stands for `dt.datetime.now().strftime("%Y-%m-%d %H:%M")`. -/
def build_markdown_lines (g : String → String) (items : List Item)
    (date_str now_str : String) : List String :=
  ["# GitHub AI Trending 日报 - " ++ date_str, "",
   "数据源：[" ++ TRENDING_URL ++ "](" ++ TRENDING_URL ++ ")", ""]
    ++ (if items = [] then
          ["今日未匹配到包含 \x27AI\x27 关键字的 Trending 项目。"]
        else
          ["今日共匹配到 " ++ toString items.length ++ " 个项目，展示前 "
             ++ toString (min TOP_N items.length) ++ " 个：", ""]
            ++ ((items.take TOP_N).enum.map (fun p => recordBlock g (p.1 + 1) p.2)).flatten
            ++ ["", "---", "生成时间（本地）：" ++ now_str])

/-- `"\n".join(lines)` of `build_markdown`. -/
def build_markdown (g : String → String) (items : List Item)
    (date_str now_str : String) : String :=
  String.intercalate "\n" (build_markdown_lines g items date_str now_str)

/-- The `"## 最新日报"` marker heading of `update_readme`'s regex. -/
def markerA : List Char := "## 最新日报".data

/-- The `"## 目录"` marker heading of `update_readme`'s regex. -/
def markerB : List Char := "## 目录".data

/-- Index of the first occurrence of `pat` in the list, if any. -/
def findOcc (pat : List Char) : List Char → Option Nat
  | [] => if pat.isPrefixOf [] then some 0 else none
  | c :: t => if pat.isPrefixOf (c :: t) then some 0 else (findOcc pat t).map (· + 1)

/-- `re.sub(r"## 最新日报[\s\S]*?## 目录", repl, content, count=1)` where
`repl` sandwiches `latest_line` between the two markers: the leftmost-start
match begins at the first occurrence of `markerA` and, lazily, ends at the
nearest following occurrence of `markerB`; `none` when no match exists (the
substitution then returns the input unchanged). -/
def update_core (content latest_line : List Char) : Option (List Char) :=
  match findOcc markerA content with
  | none => none
  | some i =>
    match findOcc markerB (content.drop (i + markerA.length)) with
    | none => none
    | some k =>
      some (content.take i ++ markerA ++ "\n\n".data ++ latest_line ++ "\n\n".data ++ markerB
        ++ content.drop (i + markerA.length + k + markerB.length))

/-- The read-modify-write core of `update_readme(latest_path)` on the index
document `content`, with `basename = os.path.basename(latest_path)`: the
substitution result is kept only when it differs from the input, otherwise
a fresh "latest report" section is appended (the script's `# fallback`
branch tests `new_content == content`). -/
def update_readme_content (content basename : String) : String :=
  let latest_line := "- [" ++ basename ++ "](reports/" ++ basename ++ ")"
  let new_content :=
    match update_core content.data latest_line.data with
    | some nc => String.mk nc
    | none => content
  if new_content = content then content ++ "\n\n## 最新日报\n\n" ++ latest_line ++ "\n"
  else new_content

/-- Number of indices at which `pat` occurs in the list. -/
def countOcc (pat : List Char) : List Char → Nat
  | [] => if pat.isPrefixOf [] then 1 else 0
  | c :: t => (if pat.isPrefixOf (c :: t) then 1 else 0) + countOcc pat t

/-! ## Helper lemmas -/

theorem firstMatch_eq_none (pm : String → Bool) :
    ∀ ls : List String, (∀ l ∈ ls, pm l = false) → firstMatch pm ls = none
  | [], _ => rfl
  | l :: t, h => by
    have h0 : pm l = false := h l (by simp)
    have ih := firstMatch_eq_none pm t (fun x hx => h x (List.mem_cons_of_mem _ hx))
    simp [firstMatch, h0, ih]

theorem firstMatch_eq_some (pm : String → Bool) :
    ∀ (ls : List String) (k : Nat) (lk : String), ls[k]? = some lk → pm lk = true →
      (∀ j v, j < k → ls[j]? = some v → pm v = false) → firstMatch pm ls = some k
  | [], k, lk, h, _, _ => by simp at h
  | l :: t, 0, lk, h, hpm, _ => by
    simp only [List.getElem?_cons_zero, Option.some.injEq] at h
    subst h
    simp [firstMatch, hpm]
  | l :: t, k + 1, lk, h, hpm, hlt => by
    have h0 : pm l = false := hlt 0 l (Nat.succ_pos k) (by simp)
    have ih := firstMatch_eq_some pm t k lk (by simpa using h) hpm
      (fun j v hj hv => hlt (j + 1) v (by omega) (by simpa using hv))
    simp [firstMatch, h0, ih]

theorem findEnd_eq (lines : List String) (k e : Nat) (_hel : e ≤ lines.length)
    (hmid : ∀ j v, k < j → j < e → lines[j]? = some v → pyStartsWith v "#" = false)
    (hend : e = lines.length ∨ ∃ le, lines[e]? = some le ∧ pyStartsWith le "#" = true)
    (hke : k < e) :
    findEnd lines k = e := by
  unfold findEnd
  rcases hend with he | ⟨le, h1, h2⟩
  · have hn : firstMatch (fun l => pyStartsWith l "#") (lines.drop (k + 1)) = none := by
      apply firstMatch_eq_none
      intro l hl
      obtain ⟨j, hj⟩ := List.mem_iff_getElem?.mp hl
      rw [List.getElem?_drop] at hj
      have hjlen : k + 1 + j < lines.length := (List.getElem?_eq_some.mp hj).1
      exact hmid (k + 1 + j) l (by omega) (by omega) hj
    simp [hn, he]
  · have hs : firstMatch (fun l => pyStartsWith l "#") (lines.drop (k + 1)) = some (e - (k + 1)) := by
      refine firstMatch_eq_some _ _ _ le ?_ h2 ?_
      · rw [List.getElem?_drop, show k + 1 + (e - (k + 1)) = e by omega]
        exact h1
      · intro j v hj hv
        rw [List.getElem?_drop] at hv
        exact hmid (k + 1 + j) v (by omega) (by omega) hv
    simp [hs]
    omega

/-! ## Claim theorems -/

/-- Claim C2 (code bug): on an index document containing both marker
headings in order, one run of the Index Updater installs the reference
line correctly, but a second run with the same report path does not leave
exactly one reference line: because the script detects "markers not found"
by `new_content == content`, the now no-op substitution triggers the
fallback append, and the reference line ends up present twice. -/
theorem update_readme_second_run_duplicates :
    (findOcc markerA ("# Home\n\n## 最新日报\n\nOLD\n\n## 目录\n\n- a.md").data = some 8
      ∧ findOcc markerB (("# Home\n\n## 最新日报\n\nOLD\n\n## 目录\n\n- a.md").data.drop 15) = some 7)
    ∧ update_readme_content "# Home\n\n## 最新日报\n\nOLD\n\n## 目录\n\n- a.md" "r.md"
        = "# Home\n\n## 最新日报\n\n- [r.md](reports/r.md)\n\n## 目录\n\n- a.md"
    ∧ countOcc ("- [r.md](reports/r.md)").data
        ((update_readme_content "# Home\n\n## 最新日报\n\nOLD\n\n## 目录\n\n- a.md" "r.md").data) = 1
    ∧ update_readme_content
        (update_readme_content "# Home\n\n## 最新日报\n\nOLD\n\n## 目录\n\n- a.md" "r.md") "r.md"
        = "# Home\n\n## 最新日报\n\n- [r.md](reports/r.md)\n\n## 目录\n\n- a.md\n\n## 最新日报\n\n- [r.md](reports/r.md)\n"
    ∧ countOcc ("- [r.md](reports/r.md)").data
        ((update_readme_content
          (update_readme_content "# Home\n\n## 最新日报\n\nOLD\n\n## 目录\n\n- a.md" "r.md") "r.md").data) = 2 := by
  decide

/-- Claim C3: the Report Builder on an empty filtered record list produces
only the fixed header lines and the single no-matches notice; no
per-record block and no footer timestamp line appear in that branch. -/
theorem build_markdown_empty (g : String → String) (d n : String) :
    build_markdown_lines g [] d n =
      ["# GitHub AI Trending 日报 - " ++ d, "",
       "数据源：[https://github.com/trending?since=daily](https://github.com/trending?since=daily)",
       "",
       "今日未匹配到包含 \x27AI\x27 关键字的 Trending 项目。"]
    ∧ build_markdown g [] "2026-02-03" n =
      "# GitHub AI Trending 日报 - 2026-02-03\n\n数据源：[https://github.com/trending?since=daily](https://github.com/trending?since=daily)\n\n今日未匹配到包含 \x27AI\x27 关键字的 Trending 项目。" := by
  exact ⟨rfl, rfl⟩

/-- Claim C9: the secondary raw-document fetch tries "main" then "master"
in order, the first successful response wins, a failure of both attempts
yields the empty string (the embedding is a total function: no exception
escapes), and with an empty README the summary fields degrade to
empty/default values. -/
theorem fetch_readme_fallback :
    (∀ (att : String → Option String) (d : String), att "main" = some d →
        fetch_readme att = String.mk (d.data.take README_MAX_CHARS))
    ∧ (∀ (att : String → Option String) (d : String), att "main" = none →
        att "master" = some d →
        fetch_readme att = String.mk (d.data.take README_MAX_CHARS))
    ∧ (∀ att : String → Option String, att "main" = none → att "master" = none →
        fetch_readme att = "")
    ∧ (∀ (att : String → Option String) (desc : String), att "main" = none →
        att "master" = none →
        (summarize_repo_cn (fetch_readme att) desc).install = ""
        ∧ (summarize_repo_cn (fetch_readme att) desc).usage = ""
        ∧ (summarize_repo_cn (fetch_readme att) desc).intro
            = (if desc = "" then desc else stripStr desc)) := by
  refine ⟨?_, ?_, ?_, ?_⟩
  · intro att d h
    simp [fetch_readme, fetch_readme_loop, h]
  · intro att d h1 h2
    simp [fetch_readme, fetch_readme_loop, h1, h2]
  · intro att h1 h2
    simp [fetch_readme, fetch_readme_loop, h1, h2]
  · intro att desc h1 h2
    have hf : fetch_readme att = "" := by simp [fetch_readme, fetch_readme_loop, h1, h2]
    rw [hf]
    have he : ∀ pm : String → Bool, extract_section pm "" = "" := fun pm => rfl
    refine ⟨by simp [summarize_repo_cn, he], by simp [summarize_repo_cn, he], ?_⟩
    simp [summarize_repo_cn, he]

/-- Witness for `fetch_readme_fallback` at a concrete oracle. -/
theorem fetch_readme_fallback_witness :
    fetch_readme (fun b => if b = "master" then some "hello" else none)
      = String.mk (("hello" : String).data.take README_MAX_CHARS) :=
  fetch_readme_fallback.2.1 (fun b => if b = "master" then some "hello" else none)
    "hello" (by decide) (by decide)

/-- Claim C10: a successfully fetched README is truncated to at most 4000
characters before any section extraction sees it, so when no line of the
truncated document matches the patterns the excerpt is empty. -/
theorem fetch_readme_truncates :
    (∀ att : String → Option String, (fetch_readme att).length ≤ README_MAX_CHARS)
    ∧ (∀ (att : String → Option String) (d : String), att "main" = some d →
        fetch_readme att = String.mk (d.data.take README_MAX_CHARS))
    ∧ (∀ (att : String → Option String) (d : String) (pm : String → Bool),
        att "main" = some d →
        (∀ l ∈ splitlines (d.data.take README_MAX_CHARS), pm l = false) →
        extract_section pm (fetch_readme att) = "") := by
  have hmain : ∀ (att : String → Option String) (d : String), att "main" = some d →
      fetch_readme att = String.mk (d.data.take README_MAX_CHARS) := by
    intro att d h
    simp [fetch_readme, fetch_readme_loop, h]
  refine ⟨?_, hmain, ?_⟩
  · intro att
    rcases h1 : att "main" with _ | d
    · rcases h2 : att "master" with _ | d
      · simp [fetch_readme, fetch_readme_loop, h1, h2]
      · have : fetch_readme att = String.mk (d.data.take README_MAX_CHARS) := by
          simp [fetch_readme, fetch_readme_loop, h1, h2]
        rw [this]
        show (d.data.take README_MAX_CHARS).length ≤ README_MAX_CHARS
        rw [List.length_take]
        omega
    · rw [hmain att d h1]
      show (d.data.take README_MAX_CHARS).length ≤ README_MAX_CHARS
      rw [List.length_take]
      omega
  · intro att d pm h1 h2
    rw [hmain att d h1]
    unfold extract_section rawSection
    by_cases hx : d.data.take README_MAX_CHARS = []
    · simp [hx]
    · have hn : firstMatch pm (splitlines (String.mk (d.data.take README_MAX_CHARS)).data) = none := by
        apply firstMatch_eq_none
        intro l hl
        exact h2 l hl
      simp [hx, hn]

/-- Witness for `fetch_readme_truncates` at a concrete oracle and pattern
set. -/
theorem fetch_readme_truncates_witness :
    extract_section (fun _ => false)
      (fetch_readme (fun b => if b = "main" then some "x" else none)) = "" :=
  fetch_readme_truncates.2.2 (fun b => if b = "main" then some "x" else none) "x"
    (fun _ => false) (by decide) (by intro l hl; rfl)

/-- Claim C8: the Section Extractor's result never exceeds 400 characters,
and a cleaned section longer than 400 characters is cut to exactly 400
characters by a plain character-prefix cut. -/
theorem extract_section_bounded :
    (∀ (pm : String → Bool) (text : String), (extract_section pm text).length ≤ 400)
    ∧ (∀ (pm : String → Bool) (text : String) (raw : List Char),
        rawSection pm text = some raw → 400 < (cleanSection raw).length →
        extract_section pm text = String.mk ((cleanSection raw).take 400)
        ∧ (extract_section pm text).length = 400) := by
  constructor
  · intro pm text
    unfold extract_section
    rcases h : rawSection pm text with _ | raw
    · simp
    · show ((cleanSection raw).take 400).length ≤ 400
      rw [List.length_take]
      omega
  · intro pm text raw h hlen
    have he : extract_section pm text = String.mk ((cleanSection raw).take 400) := by
      unfold extract_section
      rw [h]
    refine ⟨he, ?_⟩
    rw [he]
    show ((cleanSection raw).take 400).length = 400
    rw [List.length_take]
    omega

set_option maxRecDepth 8192 in
/-- Witness for `extract_section_bounded` on a 401-character section. -/
theorem extract_section_bounded_witness :
    extract_section (fun _ => true) (String.mk (List.replicate 401 'a'))
      = String.mk ((cleanSection (List.replicate 401 'a')).take 400)
    ∧ (extract_section (fun _ => true) (String.mk (List.replicate 401 'a'))).length = 400 :=
  extract_section_bounded.2 (fun _ => true) (String.mk (List.replicate 401 'a'))
    (List.replicate 401 'a') (by decide) (by decide)

/-- Claim C7: with no matching line (or empty input) the Section Extractor
returns the empty string; otherwise the extracted window starts at the
first line matching any pattern and ends just before the next line
beginning with `#` strictly after it (or at the document's end), and on
`"## Install\ntext\n## Usage\nmore"` with pattern `install` the result is
exactly `"## Install text"`. -/
theorem extract_section_window :
    (∀ pm : String → Bool, extract_section pm "" = "")
    ∧ (∀ (pm : String → Bool) (text : String),
        (∀ l ∈ splitlines text.data, pm l = false) → extract_section pm text = "")
    ∧ (∀ (pm : String → Bool) (text : String) (k e : Nat) (lk : String),
        (splitlines text.data)[k]? = some lk → pm lk = true →
        (∀ j v, j < k → (splitlines text.data)[j]? = some v → pm v = false) →
        k < e → e ≤ (splitlines text.data).length →
        (∀ j v, k < j → j < e → (splitlines text.data)[j]? = some v →
          pyStartsWith v "#" = false) →
        (e = (splitlines text.data).length
          ∨ ∃ le, (splitlines text.data)[e]? = some le ∧ pyStartsWith le "#" = true) →
        extract_section pm text =
          String.mk ((cleanSection (pstrip (String.intercalate "\n"
            (((splitlines text.data).drop k).take (e - k))).data)).take 400))
    ∧ extract_section (searchCI "install") "## Install\ntext\n## Usage\nmore"
        = "## Install text" := by
  refine ⟨fun pm => rfl, ?_, ?_, by decide⟩
  · intro pm text h
    unfold extract_section rawSection
    by_cases hx : text.data = []
    · simp [hx]
    · have hn : firstMatch pm (splitlines text.data) = none := firstMatch_eq_none pm _ h
      simp [hx, hn]
  · intro pm text k e lk hk hpm hlt hke hel hmid hor
    have hne : text.data ≠ [] := by
      intro h0
      rw [h0] at hk
      simp [splitlines, slGo] at hk
    have hfm : firstMatch pm (splitlines text.data) = some k :=
      firstMatch_eq_some pm _ k lk hk hpm hlt
    have hfe : findEnd (splitlines text.data) k = e := findEnd_eq _ k e hel hmid hor hke
    unfold extract_section rawSection
    simp [hne, hfm, hfe]

/-- Witness for `extract_section_window` on the spec's concrete document. -/
theorem extract_section_window_witness :
    extract_section (searchCI "install") "## Install\ntext\n## Usage\nmore" =
      String.mk ((cleanSection (pstrip (String.intercalate "\n"
        (((splitlines ("## Install\ntext\n## Usage\nmore" : String).data).drop 0).take
          (2 - 0))).data)).take 400) := by
  have h6 : ∀ j v, 0 < j → j < 2 →
      (splitlines ("## Install\ntext\n## Usage\nmore" : String).data)[j]? = some v →
      pyStartsWith v "#" = false := by
    intro j v hj1 hj2 hv
    have hj : j = 1 := by omega
    subst hj
    have hx : (splitlines ("## Install\ntext\n## Usage\nmore" : String).data)[1]?
        = some "text" := by decide
    rw [hx] at hv
    cases hv
    decide
  exact extract_section_window.2.2.1 (searchCI "install")
    "## Install\ntext\n## Usage\nmore" 0 2 "## Install" (by decide) (by decide)
    (fun j v hj _ => absurd hj (by omega)) (by decide) (by decide) h6
    (Or.inr ⟨"## Usage", by decide, by decide⟩)

/-! ## Lemmas on the fenced-code-block removal -/

theorem fenceAt_short (l : List Char) (j : Nat) (h : l.length < j + 3) :
    fenceAt l j = false := by
  unfold fenceAt
  by_contra hx
  have hp : fence <+: l.drop j :=
    List.isPrefixOf_iff_prefix.mp (Bool.not_eq_false _ ▸ hx)
  have hle := hp.length_le
  simp [fence, List.length_drop] at hle
  omega

theorem fenceAt_cons_succ (c : Char) (t : List Char) (j : Nat) :
    fenceAt (c :: t) (j + 1) = fenceAt t j := by
  simp [fenceAt]

theorem fenceAt_zero_cons (a b c : Char) (t : List Char) :
    fenceAt (a :: b :: c :: t) 0 = true ↔ (a = bq ∧ b = bq ∧ c = bq) := by
  simp only [fenceAt, fence, List.drop_zero, List.isPrefixOf, Bool.and_eq_true, beq_iff_eq,
    and_true, true_and]
  constructor
  · rintro ⟨x, y, z⟩
    exact ⟨x.symm, y.symm, z.symm⟩
  · rintro ⟨x, y, z⟩
    exact ⟨x.symm, y.symm, z.symm⟩

theorem rfGo_none_id :
    ∀ (n : Nat) (l : List Char), l.length ≤ n → (∀ j, fenceAt l j = false) →
      rfGo none l = l := by
  intro n
  induction n with
  | zero =>
    intro l hl _
    have : l = [] := List.length_eq_zero.mp (Nat.le_zero.mp hl)
    subst this
    rfl
  | succ n ih =>
    intro l hl hf
    match l with
    | [] => rfl
    | [a] => rfl
    | [a, b] => rfl
    | a :: b :: c :: t =>
      have hcond : ¬(a = bq ∧ b = bq ∧ c = bq) := by
        intro hc
        have h0 := hf 0
        rw [(fenceAt_zero_cons a b c t).mpr hc] at h0
        exact Bool.true_eq_false.mp h0
      show (if a = bq ∧ b = bq ∧ c = bq then rfGo (some [a, b, c]) t
            else a :: rfGo none (b :: c :: t)) = a :: b :: c :: t
      rw [if_neg hcond]
      have hlen : (b :: c :: t).length ≤ n := by
        simp only [List.length_cons] at hl ⊢
        omega
      rw [ih (b :: c :: t) hlen
        (fun j => by rw [← fenceAt_cons_succ a]; exact hf (j + 1))]

theorem rfGo_some_id :
    ∀ (n : Nat) (l buf : List Char), l.length ≤ n → (∀ j, fenceAt l j = false) →
      rfGo (some buf) l = buf ++ l := by
  intro n
  induction n with
  | zero =>
    intro l buf hl _
    have : l = [] := List.length_eq_zero.mp (Nat.le_zero.mp hl)
    subst this
    rfl
  | succ n ih =>
    intro l buf hl hf
    match l with
    | [] => rfl
    | [a] => rfl
    | [a, b] => rfl
    | a :: b :: c :: t =>
      have hcond : ¬(a = bq ∧ b = bq ∧ c = bq) := by
        intro hc
        have h0 := hf 0
        rw [(fenceAt_zero_cons a b c t).mpr hc] at h0
        exact Bool.true_eq_false.mp h0
      show (if a = bq ∧ b = bq ∧ c = bq then rfGo none t
            else rfGo (some (buf ++ [a])) (b :: c :: t)) = buf ++ a :: b :: c :: t
      rw [if_neg hcond]
      have hlen : (b :: c :: t).length ≤ n := by
        simp only [List.length_cons] at hl ⊢
        omega
      rw [ih (b :: c :: t) (buf ++ [a]) hlen
        (fun j => by rw [← fenceAt_cons_succ a]; exact hf (j + 1))]
      simp

theorem rfGo_none_split :
    ∀ (n : Nat) (l : List Char) (i : Nat), l.length ≤ n → fenceAt l i = true →
      (∀ j < i, fenceAt l j = false) →
      rfGo none l = l.take i ++ rfGo (some fence) (l.drop (i + 3)) := by
  intro n
  induction n with
  | zero =>
    intro l i hl h1 _
    have : l = [] := List.length_eq_zero.mp (Nat.le_zero.mp hl)
    subst this
    rw [fenceAt_short [] i (by simp)] at h1
    exact absurd h1 (by simp)
  | succ n ih =>
    intro l i hl h1 hlt
    have hil : i + 3 ≤ l.length := by
      by_contra hx
      rw [fenceAt_short l i (by omega)] at h1
      exact absurd h1 (by simp)
    match l with
    | [] => simp only [List.length_nil] at hil; omega
    | [a] => simp only [List.length_cons, List.length_nil] at hil; omega
    | [a, b] => simp only [List.length_cons, List.length_nil] at hil; omega
    | a :: b :: c :: t =>
      match i with
      | 0 =>
        obtain ⟨ha, hb, hc⟩ := (fenceAt_zero_cons a b c t).mp h1
        subst ha; subst hb; subst hc
        show (if bq = bq ∧ bq = bq ∧ bq = bq then rfGo (some [bq, bq, bq]) t
              else bq :: rfGo none (bq :: bq :: t)) = _
        rw [if_pos ⟨rfl, rfl, rfl⟩]
        rfl
      | i + 1 =>
        have hcond : ¬(a = bq ∧ b = bq ∧ c = bq) := by
          intro hc2
          have h0 := hlt 0 (Nat.succ_pos i)
          rw [(fenceAt_zero_cons a b c t).mpr hc2] at h0
          exact Bool.true_eq_false.mp h0
        show (if a = bq ∧ b = bq ∧ c = bq then rfGo (some [a, b, c]) t
              else a :: rfGo none (b :: c :: t)) = _
        rw [if_neg hcond]
        have hlen : (b :: c :: t).length ≤ n := by
          simp only [List.length_cons] at hl ⊢
          omega
        have ihr := ih (b :: c :: t) i hlen
          (by rw [← fenceAt_cons_succ a]; exact h1)
          (fun j hj => by rw [← fenceAt_cons_succ a]; exact hlt (j + 1) (by omega))
        rw [ihr]
        simp [List.take_succ_cons, List.drop_succ_cons]

/-- Claim C1 as stated is false on the code: on the input `"x```abc"` the
opening triple-backtick delimiter at index 1 has no matching closing
delimiter (no fence occurs at any other index), yet the fenced-code-block
removal deletes nothing — the result is the whole input, not the text up
to the opening delimiter. -/
theorem removeFences_spec_cex :
    fenceAt ("x```abc").data 1 = true
    ∧ (∀ j < ("x```abc").data.length, j ≠ 1 → fenceAt ("x```abc").data j = false)
    ∧ removeFences ("x```abc").data = ("x```abc").data
    ∧ removeFences ("x```abc").data ≠ ("x```abc").data.take 1 := by
  decide

/-- Claim C1 (amended): when a fenced code block's opening triple-backtick
delimiter has no matching closing delimiter, the fenced-code-block removal
removes nothing at all — the non-greedy pattern requires the closing
delimiter, so the unterminated fence and all text after it are kept
verbatim. -/
theorem removeFences_unterminated (l : List Char) (i : Nat)
    (h1 : fenceAt l i = true) (h2 : ∀ j < i, fenceAt l j = false)
    (h3 : ∀ j, i + 3 ≤ j → j < l.length → fenceAt l j = false) :
    removeFences l = l := by
  have h3x : ∀ j, i + 3 ≤ j → fenceAt l j = false := by
    intro j hj
    by_cases hl : j < l.length
    · exact h3 j hj hl
    · exact fenceAt_short l j (by omega)
  have hdrop : ∀ j, fenceAt (l.drop (i + 3)) j = false := by
    intro j
    have hshift : fenceAt (l.drop (i + 3)) j = fenceAt l (i + 3 + j) := by
      unfold fenceAt
      rw [List.drop_drop]
    rw [hshift]
    exact h3x _ (by omega)
  have hsplit := rfGo_none_split l.length l i le_rfl h1 h2
  have hid := rfGo_some_id (l.drop (i + 3)).length (l.drop (i + 3)) fence le_rfl hdrop
  rw [removeFences, hsplit, hid]
  have hfp : fence <+: l.drop i := by
    unfold fenceAt at h1
    exact List.isPrefixOf_iff_prefix.mp h1
  obtain ⟨rest, hrest⟩ := hfp
  have hrest2 : rest = l.drop (i + 3) := by
    have hd := congrArg (List.drop 3) hrest
    simp only [fence, List.cons_append, List.nil_append, List.drop_succ_cons,
      List.drop_zero] at hd
    rw [hd, List.drop_drop]
  rw [← hrest2]
  rw [show l.take i ++ (fence ++ rest) = l.take i ++ l.drop i by rw [hrest]]
  exact List.take_append_drop i l

/-- Witness for `removeFences_unterminated` on the input `"```x"`. -/
theorem removeFences_unterminated_witness :
    removeFences ("```x").data = ("```x").data :=
  removeFences_unterminated ("```x").data 0 (by decide)
    (fun j hj => absurd hj (by omega))
    (by
      intro j hj1 hj2
      have hj : j = 3 := by
        simp at hj2
        omega
      subst hj
      decide)

/-! ## Lemmas on the scanner -/

theorem handle_starttag_items (tag : String) (attrs : List (String × String))
    (s : ScannerState) : (handle_starttag tag attrs s).items = s.items := by
  unfold handle_starttag
  dsimp only
  (repeat' split) <;> rfl

theorem processEvents_dataRun :
    ∀ (texts : List String) (s : ScannerState),
      (processEvents (texts.map HtmlEvent.dataEv) s).items = s.items
      ∧ (processEvents (texts.map HtmlEvent.dataEv) s).in_a = s.in_a
      ∧ (processEvents (texts.map HtmlEvent.dataEv) s).in_h2 = s.in_h2
      ∧ (processEvents (texts.map HtmlEvent.dataEv) s).in_desc = s.in_desc
      ∧ (processEvents (texts.map HtmlEvent.dataEv) s).current_href = s.current_href
      ∧ (s.in_a = true →
          (processEvents (texts.map HtmlEvent.dataEv) s).current_text
            = s.current_text ++ texts)
  | [], s => by
    refine ⟨rfl, rfl, rfl, rfl, rfl, fun _ => ?_⟩
    simp [processEvents]
  | d :: ts, s => by
    have ih := processEvents_dataRun ts (handle_data d s)
    have hstep : processEvents ((d :: ts).map HtmlEvent.dataEv) s
        = processEvents (ts.map HtmlEvent.dataEv) (handle_data d s) := rfl
    rw [hstep]
    refine ⟨ih.1, ih.2.1, ih.2.2.1, ih.2.2.2.1, ih.2.2.2.2.1, fun h => ?_⟩
    have htext : (handle_data d s).current_text = s.current_text ++ [d] := by
      simp [handle_data, h]
    have hina : (handle_data d s).in_a = true := h
    rw [ih.2.2.2.2.2 hina, htext]
    simp

/-- Claim C4 as stated is false on the code: the link `"//"` begins with a
path separator and contains two path separators in total, yet closing the
anchor yields no record at all — `lstrip("/")` empties the identifier and
the scanner drops it. -/
theorem scanner_anchor_cex :
    pyStartsWith "//" "/" = true ∧ 2 ≤ countSlashes "//"
    ∧ (processEvents
        [HtmlEvent.startTag "h2" [], HtmlEvent.startTag "a" [("href", "//")],
         HtmlEvent.dataEv "x", HtmlEvent.endTag "a"] initState).items = [] := by
  decide

/-- Claim C4 (amended): when a listing heading is open and an anchor whose
link begins with a path separator and has at least two separators in total
opens, accumulates text, and closes, the scanner yields exactly one record
for it, provided the link does not consist of separators only; the record's
identifier is the link with all its leading separators stripped, and its
display text is the accumulated text, whitespace-collapsed and trimmed. -/
theorem scanner_anchor_yields_record (s : ScannerState) (href : String)
    (texts : List String) (hh2 : s.in_h2 = true)
    (hs : pyStartsWith href "/" = true) (hc : 2 ≤ countSlashes href)
    (hne : lstripSlash href ≠ "") :
    (processEvents (anchorEvents [("href", href)] texts) s).items
      = s.items ++ [{ repo := lstripSlash href, display := cleanText texts, desc := "" }] := by
  have hne0 : href ≠ "" := by
    intro h0
    subst h0
    exact absurd hs (by decide)
  have hstart : step s (HtmlEvent.startTag "a" [("href", href)])
      = { s with in_a := true, current_href := some href, current_text := [] } := by
    show handle_starttag "a" [("href", href)] s = _
    simp [handle_starttag, dictGet, hh2, hne0, hs, hc]
  have hsplitev : processEvents (anchorEvents [("href", href)] texts) s
      = handle_endtag "a"
          (processEvents (texts.map HtmlEvent.dataEv)
            { s with in_a := true, current_href := some href, current_text := [] }) := by
    unfold anchorEvents processEvents
    rw [List.foldl_cons, show step s (HtmlEvent.startTag "a" [("href", href)])
      = { s with in_a := true, current_href := some href, current_text := [] } from hstart]
    rw [List.foldl_append]
    rfl
  set sA : ScannerState :=
    { s with in_a := true, current_href := some href, current_text := [] } with hsA
  have hd := processEvents_dataRun texts sA
  set sB := processEvents (texts.map HtmlEvent.dataEv) sA with hsB
  have hBina : sB.in_a = true := hd.2.1
  have hBhref : sB.current_href = some href := hd.2.2.2.2.1
  have hBtext : sB.current_text = texts := by
    have := hd.2.2.2.2.2 rfl
    simpa using this
  have hBitems : sB.items = s.items := hd.1
  rw [hsplitev]
  simp [handle_endtag, hBina, hBhref, hBtext, hBitems, hne]

/-- Witness for `scanner_anchor_yields_record` on a concrete anchor. -/
theorem scanner_anchor_yields_record_witness :
    (processEvents (anchorEvents [("href", "/owner/name")] ["hello", "world"])
        { initState with in_h2 := true }).items
      = ({ initState with in_h2 := true } : ScannerState).items
        ++ [{ repo := lstripSlash "/owner/name",
              display := cleanText ["hello", "world"], desc := "" }] :=
  scanner_anchor_yields_record { initState with in_h2 := true } "/owner/name"
    ["hello", "world"] rfl (by decide) (by decide) (by decide)

/-- Claim C5: an anchor produces a record only if, when it opens, a listing
heading (`h2`) is open and its link begins with a path separator and has at
least two separators in total: an anchor opened outside a listing heading
leaves the record list unchanged, an anchor with fewer than two separators
inside a listing heading leaves it unchanged, and whenever the open of an
anchor makes the scanner enter capture mode, the heading was open and the
link had the required shape. -/
theorem scanner_candidacy :
    (∀ (s : ScannerState) (attrs : List (String × String)) (texts : List String),
        s.in_a = false → s.in_h2 = false →
        (processEvents (anchorEvents attrs texts) s).items = s.items)
    ∧ (∀ (s : ScannerState) (href : String) (texts : List String),
        s.in_a = false → s.in_h2 = true → countSlashes href < 2 →
        (processEvents (anchorEvents [("href", href)] texts) s).items = s.items)
    ∧ (∀ (s : ScannerState) (attrs : List (String × String)),
        s.in_a = false → (handle_starttag "a" attrs s).in_a = true →
        s.in_h2 = true ∧ ∃ href, dictGet attrs "href" = some href ∧ href ≠ ""
          ∧ pyStartsWith href "/" = true ∧ 2 ≤ countSlashes href) := by
  have tailitems : ∀ (s : ScannerState) (texts : List String), s.in_a = false →
      (handle_endtag "a" (processEvents (texts.map HtmlEvent.dataEv) s)).items = s.items := by
    intro s texts ha
    have hd := processEvents_dataRun texts s
    have hina : (processEvents (texts.map HtmlEvent.dataEv) s).in_a = false := by
      rw [hd.2.1, ha]
    simp [handle_endtag, hina, hd.1]
  refine ⟨?_, ?_, ?_⟩
  · intro s attrs texts ha hh
    have hstart : step s (HtmlEvent.startTag "a" attrs) = s := by
      show handle_starttag "a" attrs s = s
      simp [handle_starttag, hh]
    have hsp : processEvents (anchorEvents attrs texts) s
        = handle_endtag "a" (processEvents (texts.map HtmlEvent.dataEv) s) := by
      unfold anchorEvents processEvents
      rw [List.foldl_cons, hstart, List.foldl_append]
      rfl
    rw [hsp]
    exact tailitems s texts ha
  · intro s href texts ha hh hcnt
    have hnc : ¬(2 ≤ countSlashes href) := by omega
    have hstart : step s (HtmlEvent.startTag "a" [("href", href)]) = s := by
      show handle_starttag "a" [("href", href)] s = s
      simp [handle_starttag, dictGet, hh, hnc]
    have hsp : processEvents (anchorEvents [("href", href)] texts) s
        = handle_endtag "a" (processEvents (texts.map HtmlEvent.dataEv) s) := by
      unfold anchorEvents processEvents
      rw [List.foldl_cons, hstart, List.foldl_append]
      rfl
    rw [hsp]
    exact tailitems s texts ha
  · intro s attrs ha h
    by_cases hh : s.in_h2 = true
    · refine ⟨hh, ?_⟩
      rcases hdg : dictGet attrs "href" with _ | href
      · exfalso
        have hun : (handle_starttag "a" attrs s).in_a = s.in_a := by
          simp [handle_starttag, hdg, hh]
        rw [hun, ha] at h
        exact Bool.false_ne_true h
      · refine ⟨href, rfl, ?_⟩
        by_cases hcond : href ≠ "" ∧ pyStartsWith href "/" = true ∧ 2 ≤ countSlashes href
        · exact hcond
        · exfalso
          have hun : (handle_starttag "a" attrs s).in_a = s.in_a := by
            simp [handle_starttag, hdg, hh, hcond]
          rw [hun, ha] at h
          exact Bool.false_ne_true h
    · exfalso
      have hh2f : s.in_h2 = false := by simpa using hh
      have hun : (handle_starttag "a" attrs s).in_a = s.in_a := by
        simp [handle_starttag, hh2f]
      rw [hun, ha] at h
      exact Bool.false_ne_true h

/-- Witness for `scanner_candidacy`: an anchor outside a listing heading
yields no record. -/
theorem scanner_candidacy_witness :
    (processEvents (anchorEvents [("href", "/x/y")] ["t"]) initState).items
      = initState.items :=
  scanner_candidacy.1 initState [("href", "/x/y")] ["t"] rfl rfl

/-! ## Lemmas on the description assignment -/

theorem setLastDescIfEmpty_append (pre : List Item) (last : Item) (d : String) :
    setLastDescIfEmpty (pre ++ [last]) d
      = pre ++ [if last.desc = "" then { last with desc := d } else last] := by
  induction pre with
  | nil => by_cases hd : last.desc = "" <;> simp [setLastDescIfEmpty, hd]
  | cons a pre ih =>
    have hne : pre ++ [last] ≠ [] := by simp
    simp [setLastDescIfEmpty, hne, ih]

theorem setLastDescIfEmpty_preserve (items : List Item) (d : String) (k : Nat) (it : Item)
    (h : items[k]? = some it) (hd : it.desc ≠ "") :
    (setLastDescIfEmpty items d)[k]? = some it := by
  induction items generalizing k with
  | nil => simp at h
  | cons a rest ih =>
    by_cases hr : rest = []
    · subst hr
      cases k with
      | zero =>
        simp only [List.getElem?_cons_zero, Option.some.injEq] at h
        subst h
        simp [setLastDescIfEmpty, hd]
      | succ k => simp at h
    · have hstep : setLastDescIfEmpty (a :: rest) d = a :: setLastDescIfEmpty rest d := by
        simp [setLastDescIfEmpty, hr]
      rw [hstep]
      cases k with
      | zero =>
        simp only [List.getElem?_cons_zero, Option.some.injEq] at h ⊢
        exact h
      | succ k =>
        simp only [List.getElem?_cons_succ] at h ⊢
        exact ih k h

theorem handle_endtag_p_items (s : ScannerState) (hdesc : s.in_desc = true) :
    (handle_endtag "p" s).items = setLastDescIfEmpty s.items (cleanText s.current_desc) := by
  simp [handle_endtag, hdesc]

/-- Claim C6: when a marker paragraph closes, its collapsed and trimmed
text goes to the last record only if that record's description is still
empty (a later marker paragraph leaves a non-empty description untouched),
a marker paragraph closing with no record yet is discarded, and no event
ever changes a record whose description is already non-empty. -/
theorem scanner_description_rules :
    (∀ s : ScannerState, s.in_desc = true → s.items = [] →
        (handle_endtag "p" s).items = [])
    ∧ (∀ (s : ScannerState) (pre : List Item) (last : Item), s.in_desc = true →
        s.items = pre ++ [last] → last.desc = "" →
        (handle_endtag "p" s).items
          = pre ++ [{ last with desc := cleanText s.current_desc }])
    ∧ (∀ (s : ScannerState) (pre : List Item) (last : Item), s.in_desc = true →
        s.items = pre ++ [last] → last.desc ≠ "" →
        (handle_endtag "p" s).items = pre ++ [last])
    ∧ (∀ (e : HtmlEvent) (s : ScannerState) (k : Nat) (it : Item),
        s.items[k]? = some it → it.desc ≠ "" → (step s e).items[k]? = some it) := by
  refine ⟨?_, ?_, ?_, ?_⟩
  · intro s h1 h2
    rw [handle_endtag_p_items s h1, h2]
    rfl
  · intro s pre last h1 h2 h3
    rw [handle_endtag_p_items s h1, h2, setLastDescIfEmpty_append]
    rw [if_pos h3]
  · intro s pre last h1 h2 h3
    rw [handle_endtag_p_items s h1, h2, setLastDescIfEmpty_append]
    rw [if_neg h3]
  · intro e s k it h hd
    have hk : k < s.items.length := (List.getElem?_eq_some.mp h).1
    have happ : ∀ x : Item, (s.items ++ [x])[k]? = some it := by
      intro x
      rw [List.getElem?_append]
      simp [hk, h]
    cases e with
    | startTag tag attrs =>
      show (handle_starttag tag attrs s).items[k]? = some it
      rw [handle_starttag_items tag attrs s]
      exact h
    | dataEv d => exact h
    | endTag tag =>
      show (handle_endtag tag s).items[k]? = some it
      by_cases c1 : tag = "a" ∧ s.in_a = true
      · have hta : tag = "a" := c1.1
        subst hta
        simp [handle_endtag, c1.2]
        split
        · exact h
        · exact happ _
      · by_cases cp : tag = "p" ∧ s.in_desc = true
        · have htp : tag = "p" := cp.1
          subst htp
          simp [handle_endtag, cp.2]
          exact setLastDescIfEmpty_preserve s.items _ k it h hd
        · by_cases c2 : tag = "h2"
          · subst c2
            simp [handle_endtag]
            exact h
          · simp [handle_endtag, c1, c2, cp]
            exact h

/-- Witness for `scanner_description_rules` on the spec's sample
description text. -/
theorem scanner_description_rules_witness :
    (handle_endtag "p"
        { initState with in_desc := true,
                         current_desc := ["Fast   and \n simple"],
                         items := [{ repo := "a/b", display := "t", desc := "" }] }).items
      = [] ++ [{ ({ repo := "a/b", display := "t", desc := "" } : Item) with
                  desc := cleanText ["Fast   and \n simple"] }] :=
  scanner_description_rules.2.1
    { initState with in_desc := true,
                     current_desc := ["Fast   and \n simple"],
                     items := [{ repo := "a/b", display := "t", desc := "" }] }
    [] { repo := "a/b", display := "t", desc := "" } rfl rfl rfl

end AiTrending
